import Mathlib

/-!
Verification of the ParaMonte Python restart-file decoder
(`src/interface/Python/paramonte/_RestartFileContents.py`).

The decoder is embedded shallowly: Python strings become `List Char`,
the line list becomes `List (List Char)`, `float64` values are modelled
exactly as `ℚ` (the numeric strings of a restart file are decimal
literals, so their parsed values are rational), and every Python-level
failure (the library's `pm.abort` on a corrupt file, an uncaught
`IndexError` from list indexing, an uncaught `ValueError` from
`np.double` / numpy broadcasting) becomes an `Except` error value.
All functions use structural recursion so that concrete runs of the
decoder evaluate inside the kernel.
-/

set_option maxRecDepth 100000

namespace RestartFile

/-- Failure modes of the decoder.  `corruptFile` is the structured report of
`_reportCorruptFile` (`pm.abort`); `indexError` and `valueError` are the
uncaught Python exceptions raised by out-of-range list indexing and by
`np.double`/broadcast shape mismatches; `unsupportedMethod` is the
constructor's abort for an unrecognized `methodName`. -/
inductive Err where
  | corruptFile
  | indexError
  | valueError
  | unsupportedMethod (methodName : List Char)
deriving DecidableEq

/-- Decidable equality for `Except` results, so that concrete runs of the
decoder can be checked by `decide`. -/
instance {ε α : Type} [DecidableEq ε] [DecidableEq α] : DecidableEq (Except ε α) := fun a b =>
  match a, b with
  | .ok x, .ok y => if h : x = y then .isTrue (by rw [h]) else .isFalse (by simp [h])
  | .error e, .error f => if h : e = f then .isTrue (by rw [h]) else .isFalse (by simp [h])
  | .ok _, .error _ => .isFalse (by simp)
  | .error _, .ok _ => .isFalse (by simp)

/-- Modelled from the spec: `pm.newline`, the line separator of the
newline-delimited input format. -/
def newline : Char := '\n'

/-- Modelled from the spec: `pm.creturn`, the carriage-return character
stripped from the raw text before line splitting. -/
def creturn : Char := '\r'

/-- Python `contents.replace(creturn, "")`: remove every carriage return. -/
def pyReplaceCR (raw : List Char) : List Char := raw.filter (fun c => ¬ c = creturn)

/-- Python `contents.split(newline)`: split a character sequence on the
newline character; a trailing newline yields a final empty line, and the
empty input yields one empty line, exactly as in Python. -/
def splitLines : List Char → List (List Char)
  | [] => [[]]
  | c :: cs =>
    let r := splitLines cs
    if c = newline then [] :: r else (c :: r.headD []) :: r.tail

/-- Python `pat in s` (substring containment) for a pattern and a string. -/
def containsSub (pat : List Char) : List Char → Bool
  | [] => pat.isEmpty
  | c :: cs => pat.isPrefixOf (c :: cs) || containsSub pat cs

/-- Auxiliary scanner for `countSub`, fuelled by the length of the scanned
string so that the recursion is structural. -/
def countSubAux (pat : List Char) : Nat → List Char → Nat
  | 0, _ => 0
  | _, [] => 0
  | fuel + 1, c :: cs =>
    if pat.isPrefixOf (c :: cs) then 1 + countSubAux pat fuel (List.drop (pat.length - 1) cs)
    else countSubAux pat fuel cs

/-- Python `s.count(pat)`: number of non-overlapping occurrences of `pat`
in `s`, scanning from the left. -/
def countSub (pat s : List Char) : Nat := countSubAux pat s.length s

/-- Value of an all-digit character sequence read in base 10. -/
def digitsToNat (cs : List Char) : Nat :=
  cs.foldl (fun n c => n * 10 + (c.toNat - Char.toNat '0')) 0

/-- Modelled from the spec: tail of a numeric literal after an `e`/`E` and
an optional exponent sign — the missing code is the float parsing done by
`np.double` and `pm.utils.isNumericString`, which are outside this file's
source. -/
def parseExpDigits (base : ℚ) (sgn : Int) (cs : List Char) : Option ℚ :=
  if cs.isEmpty then none
  else if cs.all Char.isDigit then some (base * (10 : ℚ) ^ (sgn * (digitsToNat cs : Int)))
  else none

/-- Modelled from the spec: exponent part of a numeric literal. -/
def parseExp (base : ℚ) : List Char → Option ℚ
  | '+' :: rest => parseExpDigits base 1 rest
  | '-' :: rest => parseExpDigits base (-1) rest
  | cs => parseExpDigits base 1 cs

/-- Modelled from the spec: what may follow the mantissa of a numeric
literal — nothing, or an exponent marker. -/
def parseTail (base : ℚ) : List Char → Option ℚ
  | [] => some base
  | 'e' :: rest => parseExp base rest
  | 'E' :: rest => parseExp base rest
  | _ => none

/-- Modelled from the spec: unsigned decimal literal `digits[.digits][exp]`,
with at least one digit in the mantissa. -/
def parseUnsigned (cs : List Char) : Option ℚ :=
  match cs.dropWhile Char.isDigit with
  | '.' :: rest2 =>
    if (cs.takeWhile Char.isDigit).isEmpty && (rest2.takeWhile Char.isDigit).isEmpty then none
    else
      parseTail ((digitsToNat (cs.takeWhile Char.isDigit) : ℚ)
          + (digitsToNat (rest2.takeWhile Char.isDigit) : ℚ)
            / (10 : ℚ) ^ (rest2.takeWhile Char.isDigit).length)
        (rest2.dropWhile Char.isDigit)
  | rest1 =>
    if (cs.takeWhile Char.isDigit).isEmpty then none
    else parseTail (digitsToNat (cs.takeWhile Char.isDigit) : ℚ) rest1

/-- Modelled from the spec: a line "parses as a numeric value" when it is a
decimal floating-point literal with an optional sign; the exact parsed
rational is returned.  This stands in for `np.double(string)` and
`pm.utils.isNumericString`, whose sources are not part of this file. -/
def parseNumeric : List Char → Option ℚ
  | '-' :: rest => (parseUnsigned rest).map (fun q => -q)
  | '+' :: rest => parseUnsigned rest
  | cs => parseUnsigned cs

/-- Modelled from the spec: `pm.utils.isNumericString`, true exactly when
the line parses as a numeric value. -/
def isNumericString (cs : List Char) : Bool := (parseNumeric cs).isSome

/-- The ParaDRAM field names of `_readRestartParaDRAM` (`propNameList`). -/
def propNameList : List (List Char) :=
  [ "meanAcceptanceRateSinceStart".toList
  , "sampleSize".toList
  , "logSqrtDeterminant".toList
  , "adaptiveScaleFactorSquared".toList
  , "meanVec".toList
  , "covMat".toList
  , "corMat".toList
  ]

/-- `propNameList[0]`, the marker counted to find the number of updates. -/
def marker0 : List Char := "meanAcceptanceRateSinceStart".toList

/-- `propNameList[4]`, the marker located to infer the dimensionality. -/
def marker4 : List Char := "meanVec".toList

/-- The scan of lines 165–168 of the source: starting at `rowOffset`, walk
the line list until a line contains `marker4`.  The list argument is the
suffix of the line list from `rowOffset` on, and `total` is the full line
count (`self._lineListLen`): when the suffix is exhausted the Python
expression `self._lineList[rowOffset]` raises `IndexError`; the source's
own corruption guard `if rowOffset > self._lineListLen` is tested only
after the increment, exactly as in the source. -/
def findMarkerAux (marker : List Char) : List (List Char) → Nat → Nat → Except Err Nat
  | [], _, _ => .error .indexError
  | line :: rest, rowOffset, total =>
    if containsSub marker line then .ok rowOffset
    else if rowOffset + 1 > total then .error .corruptFile
    else findMarkerAux marker rest (rowOffset + 1) total

/-- Locate the first line containing `marker`, as the source's while loop
started from `rowOffset = 0`. -/
def findMarker (marker : List Char) (lines : List (List Char)) : Except Err Nat :=
  findMarkerAux marker lines 0 lines.length

/-- The scan of line 172 of the source: starting at `start`, count
consecutive numeric lines; reaching the end of the line list while still
counting raises `IndexError` (Python indexes `lineList[start + ndim]`). -/
def countNumericAux : List (List Char) → Nat → Except Err Nat
  | [], _ => .error .indexError
  | line :: rest, acc =>
    if isNumericString line then countNumericAux rest (acc + 1) else .ok acc

/-- Count of consecutive numeric lines from index `start` (the inferred
dimensionality before the `ndim == 0` corruption check). -/
def countNumeric (lines : List (List Char)) (start : Nat) : Except Err Nat :=
  countNumericAux (lines.drop start) 0

/-- Line 186 of the source: `skip = 10 + (ndim * (ndim + 3)) // 2`, the
number of text lines occupied by one full record. -/
def skip (ndim : Nat) : Nat := 10 + ndim * (ndim + 3) / 2

/-- Line 192 of the source: `istart = icount * skip + 1`, the starting line
of record `icount`. -/
def recordStart (sk icount : Nat) : Nat := icount * sk + 1

/-- Line 212 of the source: `iPlusOne = i + 1`, the length of triangular
covariance row `i`. -/
def triRowLen (i : Nat) : Nat := i + 1

/-- Line 187 of the source: `progressFraction = np.floor(count / 20)`, the
divisor of the per-iteration progress test `icount % progressFraction`. -/
def progressFraction (count : Nat) : Nat := count / 20

/-- Python slice `lines[a:b]` for `0 ≤ a ≤ b` (clamping at the end of the
list, never raising). -/
def pySlice (lines : List (List Char)) (a b : Nat) : List (List Char) :=
  (lines.drop a).take (b - a)

/-- `np.double(self._lineList[idx])` after a Python index access: an
out-of-range index raises `IndexError`; a non-numeric line raises
`ValueError`. -/
def readScalar (lines : List (List Char)) (idx : Nat) : Except Err ℚ :=
  match lines.get? idx with
  | none => .error .indexError
  | some line =>
    match parseNumeric line with
    | none => .error .valueError
    | some q => .ok q

/-- `np.double(listOfStrings)`: parse every string of a slice; any
non-numeric entry raises `ValueError`. -/
def npDoubleList : List (List Char) → Except Err (List ℚ)
  | [] => .ok []
  | s :: ss =>
    match parseNumeric s with
    | none => .error .valueError
    | some q =>
      match npDoubleList ss with
      | .error e => .error e
      | .ok qs => .ok (q :: qs)

/-- Numpy assignment of a parsed 1-d array into a slot of length `n`:
an array of matching length is stored as is, a length-1 array broadcasts,
and any other length raises `ValueError`. -/
def npAssign (vals : List ℚ) (n : Nat) : Except Err (List ℚ) :=
  if vals.length = n then .ok vals
  else if vals.length = 1 then .ok (List.replicate n (vals.getD 0 0))
  else .error .valueError

/-- Lines 216–217 of the source, for one triangular row `t`: write the
parsed row into `covMat[t][0..t]` and simultaneously mirror it into
`covMat[0..t][t]`. -/
def writeRow (M : Nat → Nat → ℚ) (t : Nat) (vals : List ℚ) : Nat → Nat → ℚ :=
  fun r c =>
    if r = t ∧ c ≤ t then vals.getD c 0
    else if c = t ∧ r ≤ t then vals.getD r 0
    else M r c

/-- The covariance loop of lines 211–217: fold `writeRow` over the parsed
triangular rows, row index ascending. -/
def buildCovAux : List (List ℚ) → Nat → (Nat → Nat → ℚ) → (Nat → Nat → ℚ)
  | [], _, M => M
  | vals :: rest, t, M => buildCovAux rest (t + 1) (writeRow M t vals)

/-- The covariance matrix produced from the parsed triangular rows,
starting from the `np.zeros((ndim, ndim))` preallocation. -/
def buildCov (rows : List (List ℚ)) : Nat → Nat → ℚ :=
  buildCovAux rows 0 (fun _ _ => 0)

/-- Materialize a `d × d` matrix function as a row-major list of rows. -/
def covList (d : Nat) (M : Nat → Nat → ℚ) : List (List ℚ) :=
  (List.range d).map (fun i => (List.range d).map (fun j => M i j))

/-- Entry `[i][j]` of a row-major matrix (0 outside the stored rows). -/
def matGet (c : List (List ℚ)) (i j : Nat) : ℚ := (c.getD i []).getD j 0

/-- Lines 206–217 of the source: read the `ndim` + 1 covariance slices
`lines[istart:iend]`, row `i` of length `triRowLen i`, starting with row 0
at line index `istart`; `remaining` counts the rows still to read. -/
def readCovRows (lines : List (List Char)) : Nat → Nat → Nat → Except Err (List (List ℚ))
  | _, _, 0 => .ok []
  | istart, i, remaining + 1 =>
    match npDoubleList (pySlice lines istart (istart + triRowLen i)) with
    | .error e => .error e
    | .ok vals =>
      match npAssign vals (triRowLen i) with
      | .error e => .error e
      | .ok row =>
        match readCovRows lines (istart + triRowLen i) (i + 1) remaining with
        | .error e => .error e
        | .ok rest => .ok (row :: rest)

/-- One decoded adaptation snapshot (`RestartSnapshot` of the spec): the
four scalar fields, the mean vector, and the reconstructed symmetric
covariance matrix. -/
structure Snapshot where
  meanAcceptanceRateSinceStart : ℚ
  sampleSize : ℚ
  logSqrtDeterminant : ℚ
  adaptiveScaleFactorSquared : ℚ
  meanVec : List ℚ
  covMat : List (List ℚ)
deriving DecidableEq, Inhabited

/-- Lines 192–217 of the source: decode record `icount` — the four scalars
at relative offsets 0, 2, 4, 6, the mean vector slice
`lines[istart+8 : istart+8+ndim]`, and, after `iend += 1`, the `ndim`
triangular covariance rows mirrored into a symmetric matrix. -/
def decodeRecord (lines : List (List Char)) (ndim sk icount : Nat) : Except Err Snapshot :=
  Except.bind (readScalar lines (recordStart sk icount + 0)) (fun mar =>
  Except.bind (readScalar lines (recordStart sk icount + 2)) (fun ssz =>
  Except.bind (readScalar lines (recordStart sk icount + 4)) (fun lsd =>
  Except.bind (readScalar lines (recordStart sk icount + 6)) (fun asf =>
  Except.bind
    (npDoubleList (pySlice lines (recordStart sk icount + 8) (recordStart sk icount + 8 + ndim)))
    (fun mvRaw =>
  Except.bind (npAssign mvRaw ndim) (fun mv =>
  Except.bind (readCovRows lines (recordStart sk icount + 8 + ndim + 1) 0 ndim) (fun rows =>
  Except.ok ⟨mar, ssz, lsd, asf, mv, covList ndim (buildCov rows)⟩)))))))

/-- Records `k, k+1, …`: decode `remaining` further records in order; the
first failure aborts the whole decode, exactly as an uncaught exception or
`pm.abort` would. -/
def decodeRecords (lines : List (List Char)) (ndim sk : Nat) : Nat → Nat → Except Err (List Snapshot)
  | _, 0 => .ok []
  | k, remaining + 1 =>
    match decodeRecord lines ndim sk k with
    | .error e => .error e
    | .ok s =>
      match decodeRecords lines ndim sk (k + 1) remaining with
      | .error e => .error e
      | .ok rest => .ok (s :: rest)

/-- The decoded result (`self.ndim`, `self.count`, and the per-record
contents assembled at lines 235–240 of the source). -/
structure RestartFileContents where
  ndim : Nat
  count : Nat
  snapshots : List Snapshot
deriving DecidableEq, Inhabited

/-- Line 155 of the source: the raw text with carriage returns removed. -/
def contentsOf (raw : List Char) : List Char := pyReplaceCR raw

/-- Line 156 of the source: `self._lineList = self._contents.split(newline)`. -/
def lineListOf (raw : List Char) : List (List Char) := splitLines (contentsOf raw)

/-- Line 161 of the source: `self.count = self._contents.count(propNameList[0])`. -/
def countOf (raw : List Char) : Nat := countSub marker0 (contentsOf raw)

/-- `_readRestartParaDRAM`: normalize and split the raw text, count the
update marker, locate the `meanVec` marker, infer the dimensionality,
reject `ndim == 0` as a corrupt file, and decode all `count` records. -/
def decode (raw : List Char) : Except Err RestartFileContents :=
  match findMarker marker4 (lineListOf raw) with
  | .error e => .error e
  | .ok mrow =>
    match countNumeric (lineListOf raw) (mrow + 1) with
    | .error e => .error e
    | .ok ndim =>
      if ndim = 0 then .error .corruptFile
      else
        match decodeRecords (lineListOf raw) ndim (skip ndim) 0 (countOf raw) with
        | .error e => .error e
        | .ok snaps => .ok ⟨ndim, countOf raw, snaps⟩

/-- Column `meanAcceptanceRateSinceStart` of the scalar table built at
lines 177–240 of the source. -/
def seriesMeanAcceptanceRate (r : RestartFileContents) : List ℚ :=
  r.snapshots.map (fun s => s.meanAcceptanceRateSinceStart)

/-- Column `sampleSize` of the scalar table. -/
def seriesSampleSize (r : RestartFileContents) : List ℚ :=
  r.snapshots.map (fun s => s.sampleSize)

/-- Column `logSqrtDeterminant` of the scalar table. -/
def seriesLogSqrtDeterminant (r : RestartFileContents) : List ℚ :=
  r.snapshots.map (fun s => s.logSqrtDeterminant)

/-- Column `adaptiveScaleFactorSquared` of the scalar table. -/
def seriesAdaptiveScaleFactorSquared (r : RestartFileContents) : List ℚ :=
  r.snapshots.map (fun s => s.adaptiveScaleFactorSquared)

/-- Modelled from the spec: `ccm.getCorFromCov` (the `_CorCovMat` module is
not part of this file's source) — `corMat[i][j] =
covMat[i][j] / sqrt(covMat[i][i] * covMat[j][j])`, with real-number
arithmetic standing in for float64. -/
noncomputable def getCorFromCov (cov : List (List ℚ)) (i j : Nat) : ℝ :=
  (matGet cov i j : ℝ) / Real.sqrt ((matGet cov i i : ℝ) * (matGet cov j j : ℝ))

/-! Concrete restart-file inputs used to witness the theorems below.  The
numeric lines use integer literals (a restart file may write any decimal
literal; integers keep kernel evaluation exact and cheap). -/

/-- A well-formed one-record file of dimensionality 1. -/
def goodRaw : List Char :=
  "meanAcceptanceRateSinceStart\n7\nsampleSize\n100\nlogSqrtDeterminant\n-3\nadaptiveScaleFactorSquared\n2\nmeanVec\n5\ncovMat\n4".toList

/-- The snapshot decoded from `goodRaw`. -/
def goodSnap : Snapshot := ⟨7, 100, -3, 2, [5], [[4]]⟩

/-- The full decode of `goodRaw`. -/
def goodContents : RestartFileContents := ⟨1, 1, [goodSnap]⟩

/-- Scenario A of the spec: one record of dimensionality 2 whose
triangular covariance rows are `[4]` and `[1, 9]`. -/
def scenarioARaw : List Char :=
  "meanAcceptanceRateSinceStart\n7\nsampleSize\n100\nlogSqrtDeterminant\n-3\nadaptiveScaleFactorSquared\n2\nmeanVec\n1\n2\ncovMat\n4\n1\n9".toList

/-- The snapshot decoded from `scenarioARaw`. -/
def scenarioASnap : Snapshot := ⟨7, 100, -3, 2, [1, 2], [[4, 1], [1, 9]]⟩

/-- The full decode of `scenarioARaw`. -/
def scenarioAContents : RestartFileContents := ⟨2, 1, [scenarioASnap]⟩

/-- A file with no line containing the `meanVec` marker. -/
def noMarkerRaw : List Char := "hello\nworld".toList

/-- A well-formed one-record file whose single covariance entry is 0, so
the covariance matrix has a zero diagonal entry. -/
def degRaw : List Char :=
  "meanAcceptanceRateSinceStart\n7\nsampleSize\n100\nlogSqrtDeterminant\n-3\nadaptiveScaleFactorSquared\n2\nmeanVec\n5\ncovMat\n0".toList

/-- The snapshot decoded from `degRaw`: `covMat = [[0]]`. -/
def degSnap : Snapshot := ⟨7, 100, -3, 2, [5], [[0]]⟩

/-- The full decode of `degRaw`. -/
def degContents : RestartFileContents := ⟨1, 1, [degSnap]⟩

/-- A line list for one record of dimensionality 1 in which the line at
relative offset `8 + d = 9` from the record start (absolute index 10, the
slot the on-disk format uses for the `covMat` label) happens to hold the
numeric text `999`, while the line at relative offset `9 + d` (absolute
index 11) holds `4`. -/
def cexLines : List (List Char) :=
  [ "lbl".toList, "7".toList, "l1".toList, "100".toList, "l2".toList, "-3".toList
  , "l3".toList, "2".toList, "l4".toList, "5".toList, "999".toList, "4".toList ]

/-- The snapshot decoded from `cexLines` (record 0, `d = 1`, `skip = 12`). -/
def cexSnap : Snapshot := ⟨7, 100, -3, 2, [5], [[4]]⟩

/-! Helper lemmas about list indexing, the numeric slices, and the
mirrored covariance construction. -/

theorem getD_of_get {α : Type} {l : List α} {n : Nat} {a : α} (d : α)
    (h : l.get? n = some a) : l.getD n d = a := by
  induction l generalizing n with
  | nil => simp at h
  | cons x xs ih =>
    cases n with
    | zero => simp at h; simp [h]
    | succ m => simp only [List.get?] at h; simpa using ih h

theorem getD_drop {α : Type} (l : List α) (a j : Nat) (d : α) :
    (l.drop a).getD j d = l.getD (a + j) d := by
  induction a generalizing l with
  | zero => simp
  | succ m ih =>
    cases l with
    | nil => simp
    | cons x xs => simpa [Nat.succ_add] using ih xs

theorem getD_take {α : Type} (l : List α) (n j : Nat) (d : α) (h : j < n) :
    (l.take n).getD j d = l.getD j d := by
  induction l generalizing n j with
  | nil => simp
  | cons x xs ih =>
    cases n with
    | zero => exact absurd h (by omega)
    | succ m =>
      cases j with
      | zero => simp
      | succ i => simpa using ih m i (by omega)

theorem getD_map_lt {α β : Type} (f : α → β) (l : List α) (k : Nat) (d : β) (d₀ : α)
    (h : k < l.length) : (l.map f).getD k d = f (l.getD k d₀) := by
  induction l generalizing k with
  | nil => simp at h
  | cons x xs ih =>
    cases k with
    | zero => simp
    | succ m => simpa using ih m (by simpa using h)

theorem range_map_getD {α : Type} (d : Nat) (f : Nat → α) (i : Nat) (dflt : α) :
    ((List.range d).map f).getD i dflt = if i < d then f i else dflt := by
  by_cases h : i < d
  · rw [if_pos h, getD_map_lt f _ i dflt 0 (by simpa using h)]
    congr 1
    exact getD_of_get 0 (List.get?_range h)
  · rw [if_neg h, List.getD_eq_default]
    simpa using Nat.le_of_not_lt h

theorem covList_matGet (d : Nat) (M : Nat → Nat → ℚ) (i j : Nat) :
    matGet (covList d M) i j = if i < d ∧ j < d then M i j else 0 := by
  unfold matGet covList
  rw [range_map_getD]
  by_cases hi : i < d
  · rw [if_pos hi, range_map_getD]
    by_cases hj : j < d
    · rw [if_pos hj, if_pos ⟨hi, hj⟩]
    · rw [if_neg hj, if_neg (by tauto)]
  · rw [if_neg hi, if_neg (by tauto)]
    simp

theorem writeRow_symm {M : Nat → Nat → ℚ} {t : Nat} {vals : List ℚ}
    (hM : ∀ i j, M i j = M j i) :
    ∀ i j, writeRow M t vals i j = writeRow M t vals j i := by
  intro i j
  unfold writeRow
  by_cases h1 : i = t ∧ j ≤ t <;> by_cases h2 : j = t ∧ i ≤ t
  · rw [if_pos h1, if_pos h2]
    obtain ⟨e1, _⟩ := h1
    obtain ⟨e2, _⟩ := h2
    rw [e1, e2]
  · rw [if_pos h1, if_neg h2, if_pos h1]
  · rw [if_neg h1, if_pos h2, if_pos h2]
  · rw [if_neg h1, if_neg h2, if_neg h2, if_neg h1]
    exact hM i j

theorem buildCovAux_symm (rows : List (List ℚ)) :
    ∀ (t : Nat) (M : Nat → Nat → ℚ), (∀ i j, M i j = M j i) →
    ∀ i j, buildCovAux rows t M i j = buildCovAux rows t M j i := by
  induction rows with
  | nil => intro t M hM i j; exact hM i j
  | cons v rest ih => intro t M hM i j; exact ih (t + 1) _ (writeRow_symm hM) i j

theorem buildCov_symm (rows : List (List ℚ)) :
    ∀ i j, buildCov rows i j = buildCov rows j i :=
  buildCovAux_symm rows 0 _ (fun _ _ => rfl)

theorem buildCovAux_stable (rows : List (List ℚ)) :
    ∀ (t : Nat) (M : Nat → Nat → ℚ) (r c : Nat), r < t → c < t →
    buildCovAux rows t M r c = M r c := by
  induction rows with
  | nil => intros; rfl
  | cons v rest ih =>
    intro t M r c hr hc
    show buildCovAux rest (t + 1) (writeRow M t v) r c = M r c
    rw [ih (t + 1) _ r c (by omega) (by omega)]
    unfold writeRow
    rw [if_neg (by omega), if_neg (by omega)]

theorem buildCov_head (v : List ℚ) (rest : List (List ℚ)) :
    buildCov (v :: rest) 0 0 = v.getD 0 0 := by
  show buildCovAux rest 1 (writeRow (fun _ _ => 0) 0 v) 0 0 = v.getD 0 0
  rw [buildCovAux_stable rest 1 _ 0 0 (by omega) (by omega)]
  unfold writeRow
  rw [if_pos ⟨rfl, Nat.le_refl 0⟩]

theorem bind_ok {α β : Type} {x : Except Err α} {f : α → Except Err β} {b : β}
    (h : Except.bind x f = .ok b) : ∃ a, x = .ok a ∧ f a = .ok b := by
  cases x with
  | error e => simp [Except.bind] at h
  | ok a => exact ⟨a, rfl, h⟩

theorem npDoubleList_length : ∀ {ss : List (List Char)} {qs : List ℚ},
    npDoubleList ss = .ok qs → qs.length = ss.length := by
  intro ss
  induction ss with
  | nil =>
    intro qs h
    rw [show npDoubleList [] = .ok [] from rfl] at h
    rw [← Except.ok.inj h]
    rfl
  | cons s tl ih =>
    intro qs h
    unfold npDoubleList at h
    cases hp : parseNumeric s with
    | none => rw [hp] at h; simp at h
    | some q =>
      rw [hp] at h
      cases hr : npDoubleList tl with
      | error e => rw [hr] at h; simp at h
      | ok qs0 =>
        rw [hr] at h
        rw [← Except.ok.inj h]
        simp [ih hr]

theorem npDoubleList_getD : ∀ {ss : List (List Char)} {qs : List ℚ},
    npDoubleList ss = .ok qs →
    ∀ j, j < ss.length → parseNumeric (ss.getD j []) = some (qs.getD j 0) := by
  intro ss
  induction ss with
  | nil => intro qs _ j hj; simp at hj
  | cons s tl ih =>
    intro qs h j hj
    unfold npDoubleList at h
    cases hp : parseNumeric s with
    | none => rw [hp] at h; simp at h
    | some q =>
      rw [hp] at h
      cases hr : npDoubleList tl with
      | error e => rw [hr] at h; simp at h
      | ok qs0 =>
        rw [hr] at h
        rw [← Except.ok.inj h]
        cases j with
        | zero => simpa using hp
        | succ m => simpa using ih hr m (by simpa using hj)

theorem npAssign_ok {vals : List ℚ} {n : Nat} {mv : List ℚ}
    (h : npAssign vals n = .ok mv) :
    (vals.length = n ∧ mv = vals) ∨
    (vals.length = 1 ∧ ¬ vals.length = n ∧ mv = List.replicate n (vals.getD 0 0)) := by
  unfold npAssign at h
  by_cases h1 : vals.length = n
  · rw [if_pos h1] at h
    exact Or.inl ⟨h1, (Except.ok.inj h).symm⟩
  · rw [if_neg h1] at h
    by_cases h2 : vals.length = 1
    · rw [if_pos h2] at h
      exact Or.inr ⟨h2, h1, (Except.ok.inj h).symm⟩
    · rw [if_neg h2] at h
      simp at h

theorem pySlice_length (lines : List (List Char)) (a b : Nat) :
    (pySlice lines a b).length = min (b - a) (lines.length - a) := by
  simp [pySlice]

theorem pySlice_getD (lines : List (List Char)) (a b j : Nat) (h : j < b - a) :
    (pySlice lines a b).getD j [] = lines.getD (a + j) [] := by
  unfold pySlice
  rw [getD_take _ _ _ _ h, getD_drop]

theorem readScalar_ok {lines : List (List Char)} {idx : Nat} {v : ℚ}
    (h : readScalar lines idx = .ok v) : parseNumeric (lines.getD idx []) = some v := by
  unfold readScalar at h
  cases h1 : lines.get? idx with
  | none => rw [h1] at h; simp at h
  | some line =>
    rw [h1] at h
    dsimp only at h
    cases h2 : parseNumeric line with
    | none => rw [h2] at h; simp at h
    | some q =>
      rw [h2] at h
      rw [getD_of_get [] h1, h2, Except.ok.inj h]

theorem decodeRecord_ok {lines : List (List Char)} {d sk k : Nat} {s : Snapshot}
    (h : decodeRecord lines d sk k = .ok s) :
    ∃ mar ssz lsd asf mvRaw mv rows,
      readScalar lines (recordStart sk k + 0) = .ok mar ∧
      readScalar lines (recordStart sk k + 2) = .ok ssz ∧
      readScalar lines (recordStart sk k + 4) = .ok lsd ∧
      readScalar lines (recordStart sk k + 6) = .ok asf ∧
      npDoubleList (pySlice lines (recordStart sk k + 8) (recordStart sk k + 8 + d)) = .ok mvRaw ∧
      npAssign mvRaw d = .ok mv ∧
      readCovRows lines (recordStart sk k + 8 + d + 1) 0 d = .ok rows ∧
      s = ⟨mar, ssz, lsd, asf, mv, covList d (buildCov rows)⟩ := by
  unfold decodeRecord at h
  obtain ⟨mar, h1, h⟩ := bind_ok h
  obtain ⟨ssz, h2, h⟩ := bind_ok h
  obtain ⟨lsd, h3, h⟩ := bind_ok h
  obtain ⟨asf, h4, h⟩ := bind_ok h
  obtain ⟨mvRaw, h5, h⟩ := bind_ok h
  obtain ⟨mv, h6, h⟩ := bind_ok h
  obtain ⟨rows, h7, h⟩ := bind_ok h
  exact ⟨mar, ssz, lsd, asf, mvRaw, mv, rows, h1, h2, h3, h4, h5, h6, h7,
    (Except.ok.inj h).symm⟩

theorem decodeRecords_length {lines : List (List Char)} {nd sk : Nat} :
    ∀ {remaining k : Nat} {l : List Snapshot},
    decodeRecords lines nd sk k remaining = .ok l → l.length = remaining := by
  intro remaining
  induction remaining with
  | zero =>
    intro k l h
    rw [show decodeRecords lines nd sk k 0 = .ok [] from rfl] at h
    rw [← Except.ok.inj h]
    rfl
  | succ rem ih =>
    intro k l h
    unfold decodeRecords at h
    cases h1 : decodeRecord lines nd sk k with
    | error e => rw [h1] at h; simp at h
    | ok s =>
      rw [h1] at h
      cases h2 : decodeRecords lines nd sk (k + 1) rem with
      | error e => rw [h2] at h; simp at h
      | ok rest =>
        rw [h2] at h
        rw [← Except.ok.inj h]
        simp [ih h2]

theorem decodeRecords_mem {lines : List (List Char)} {nd sk : Nat} :
    ∀ {remaining k : Nat} {l : List Snapshot} {s : Snapshot},
    decodeRecords lines nd sk k remaining = .ok l → s ∈ l →
    ∃ j, decodeRecord lines nd sk (k + j) = .ok s := by
  intro remaining
  induction remaining with
  | zero =>
    intro k l s h hs
    rw [show decodeRecords lines nd sk k 0 = .ok [] from rfl] at h
    rw [← Except.ok.inj h] at hs
    simp at hs
  | succ rem ih =>
    intro k l s h hs
    unfold decodeRecords at h
    cases h1 : decodeRecord lines nd sk k with
    | error e => rw [h1] at h; simp at h
    | ok s0 =>
      rw [h1] at h
      cases h2 : decodeRecords lines nd sk (k + 1) rem with
      | error e => rw [h2] at h; simp at h
      | ok rest =>
        rw [h2] at h
        rw [← Except.ok.inj h] at hs
        rcases List.mem_cons.mp hs with he | ht
        · exact ⟨0, by rw [← he] at h1; simpa using h1⟩
        · obtain ⟨j, hj⟩ := ih h2 ht
          exact ⟨j + 1, by rw [show k + (j + 1) = k + 1 + j by omega]; exact hj⟩

theorem decode_ok {raw : List Char} {r : RestartFileContents} (h : decode raw = .ok r) :
    ∃ mrow nd snaps,
      findMarker marker4 (lineListOf raw) = .ok mrow ∧
      countNumeric (lineListOf raw) (mrow + 1) = .ok nd ∧
      1 ≤ nd ∧
      decodeRecords (lineListOf raw) nd (skip nd) 0 (countOf raw) = .ok snaps ∧
      r = ⟨nd, countOf raw, snaps⟩ := by
  unfold decode at h
  cases h1 : findMarker marker4 (lineListOf raw) with
  | error e => rw [h1] at h; simp at h
  | ok mrow =>
    rw [h1] at h
    dsimp only at h
    cases h2 : countNumeric (lineListOf raw) (mrow + 1) with
    | error e => rw [h2] at h; simp at h
    | ok nd =>
      rw [h2] at h
      dsimp only at h
      by_cases h3 : nd = 0
      · rw [if_pos h3] at h; simp at h
      · rw [if_neg h3] at h
        cases h4 : decodeRecords (lineListOf raw) nd (skip nd) 0 (countOf raw) with
        | error e => rw [h4] at h; simp at h
        | ok snaps =>
          rw [h4] at h
          exact ⟨mrow, nd, snaps, rfl, h2, Nat.one_le_iff_ne_zero.mpr h3, h4,
            (Except.ok.inj h).symm⟩

theorem findMarkerAux_cases (m : List Char) :
    ∀ (ls : List (List Char)) (rowOffset total : Nat),
    rowOffset + ls.length ≤ total →
    (∃ k, findMarkerAux m ls rowOffset total = .ok k) ∨
    findMarkerAux m ls rowOffset total = .error .indexError := by
  intro ls
  induction ls with
  | nil => intro rowOffset total _; exact Or.inr rfl
  | cons line rest ih =>
    intro rowOffset total hle
    unfold findMarkerAux
    by_cases hc : containsSub m line = true
    · rw [if_pos hc]
      exact Or.inl ⟨rowOffset, rfl⟩
    · rw [if_neg hc, if_neg (by simp at hle ⊢; omega)]
      exact ih (rowOffset + 1) total (by simp at hle ⊢; omega)

theorem readCovRows_ok_head {lines : List (List Char)} {istart dd : Nat}
    {rows : List (List ℚ)}
    (h : readCovRows lines istart 0 (dd + 1) = .ok rows) :
    ∃ v rest, rows = [v] :: rest ∧ parseNumeric (lines.getD istart []) = some v := by
  unfold readCovRows at h
  cases h1 : npDoubleList (pySlice lines istart (istart + triRowLen 0)) with
  | error e => rw [h1] at h; simp at h
  | ok vals =>
    rw [h1] at h
    dsimp only at h
    cases h2 : npAssign vals (triRowLen 0) with
    | error e => rw [h2] at h; simp at h
    | ok row =>
      rw [h2] at h
      dsimp only at h
      cases h3 : readCovRows lines (istart + triRowLen 0) (0 + 1) dd with
      | error e => rw [h3] at h; simp at h
      | ok rest =>
        rw [h3] at h
        have hrow : vals.length = 1 ∧ row = vals := by
          rcases npAssign_ok h2 with ⟨hl, he⟩ | ⟨hl, hne, _⟩
          · exact ⟨hl, he⟩
          · exact absurd hl hne
        obtain ⟨hlen, hre⟩ := hrow
        have hslice : (pySlice lines istart (istart + triRowLen 0)).length = 1 := by
          rw [← npDoubleList_length h1, hlen]
        obtain ⟨v, hv⟩ : ∃ v, vals = [v] := by
          cases vals with
          | nil => simp at hlen
          | cons a tl => cases tl with
            | nil => exact ⟨a, rfl⟩
            | cons b tl2 => simp at hlen
        refine ⟨v, rest, ?_, ?_⟩
        · rw [← Except.ok.inj h, hre, hv]
        · have := npDoubleList_getD h1 0 (by omega)
          rw [pySlice_getD lines istart (istart + triRowLen 0) 0 (by simp [triRowLen])] at this
          rw [hv] at this
          simpa using this

theorem twice_triSum : ∀ d : Nat, 2 * ((List.range d).map triRowLen).sum = d * (d + 1) := by
  intro d
  induction d with
  | zero => rfl
  | succ n ih =>
    rw [show List.range (n + 1) = List.range n ++ [n] by simpa using List.range_succ (n := n)]
    rw [List.map_append, List.sum_append]
    calc 2 * (((List.range n).map triRowLen).sum + ([n].map triRowLen).sum)
        = 2 * ((List.range n).map triRowLen).sum + 2 * (n + 1) := by
          simp [triRowLen]; ring
      _ = n * (n + 1) + 2 * (n + 1) := by rw [ih]
      _ = (n + 1) * (n + 1 + 1) := by ring

theorem triRows_eq : ∀ d : Nat, (List.range d).map triRowLen = List.range' 1 d := by
  intro d
  induction d with
  | zero => rfl
  | succ n ih =>
    rw [show List.range (n + 1) = List.range n ++ [n] by simpa using List.range_succ (n := n)]
    rw [List.map_append, ih,
      show List.range' 1 (n + 1) = List.range' 1 n ++ [1 + n] by
        simp [List.range'_concat]]
    simp [triRowLen, Nat.add_comm]

/-- C2: the record geometry used by the decoder: `skip d = 10 + d*(d+3)//2`
with the division exact (`d*(d+3)` is even), record `k` starts at line
`k * skip + 1`, and the triangular covariance rows have the lengths
`1, 2, …, d`, summing to `d*(d+1)/2`. -/
theorem C2_record_geometry (d : Nat) (hd : 1 ≤ d) :
    skip d = 10 + d * (d + 3) / 2 ∧
    d * (d + 3) % 2 = 0 ∧
    (∀ k, recordStart (skip d) k = k * skip d + 1) ∧
    (List.range d).map triRowLen = List.range' 1 d ∧
    ((List.range d).map triRowLen).sum = d * (d + 1) / 2 := by
  refine ⟨rfl, ?_, fun k => rfl, triRows_eq d, ?_⟩
  · rcases Nat.even_or_odd d with h | h
    · exact Nat.even_iff.mp (h.mul_right _)
    · exact Nat.even_iff.mp ((h.add_odd (by decide)).mul_left _)
  · have h2 := twice_triSum d
    omega

/-- Witness for C2 at the concrete dimensionality `d = 2`. -/
theorem C2_record_geometry_witness :
    1 ≤ 2 ∧
    (skip 2 = 10 + 2 * (2 + 3) / 2 ∧
     2 * (2 + 3) % 2 = 0 ∧
     (∀ k, recordStart (skip 2) k = k * skip 2 + 1) ∧
     (List.range 2).map triRowLen = List.range' 1 2 ∧
     ((List.range 2).map triRowLen).sum = 2 * (2 + 1) / 2) :=
  ⟨by decide, C2_record_geometry 2 (by decide)⟩

/-- C4 (code bug): when no line contains the `meanVec` marker the decode
does not fail with the structured corrupt-file report: the scan indexes
past the end of the line list first (Python `IndexError`), because the
guard `rowOffset > lineListLen` is tested only after the increment and so
can never fire before the out-of-range access.  Concretely, decoding a
file with no marker yields `indexError`, and the marker scan can never
return `corruptFile`: its only outcomes are success or `indexError`. -/
theorem C4_marker_scan_index_error :
    decode noMarkerRaw = .error .indexError ∧
    ∀ lines, (∃ k, findMarker marker4 lines = .ok k) ∨
      findMarker marker4 lines = .error .indexError := by
  constructor
  · decide
  · intro lines
    exact findMarkerAux_cases marker4 lines 0 lines.length (by omega)

/-- C10 (counterexample): the progress divisor `floor(count / 20)` is zero
at the snapshot count `n = 1`, contradicting the claim that it is nonzero
for every `n ≥ 1`. -/
theorem C10_zero_divisor : progressFraction 1 = 0 := by decide

/-- C10 (amended): the divisor `floor(n / 20)` of the per-iteration modulo
test is zero exactly for `n < 20`; it is nonzero only from `n = 20` on. -/
theorem C10_divisor_zero_iff : ∀ n : Nat, progressFraction n = 0 ↔ n < 20 := by
  intro n
  exact Nat.div_eq_zero_iff (by omega)

/-- C7 (counterexample): a decoded covariance matrix with a zero diagonal
entry does not surface any error: the decode of `degRaw` succeeds (and the
decoder's failure enumeration has no degenerate-covariance condition at
all). -/
theorem C7_degenerate_not_surfaced :
    decode degRaw = .ok degContents ∧ matGet degSnap.covMat 0 0 = 0 := by
  constructor
  · decide
  · decide

/-- C7 (amended): on a zero diagonal entry the decode succeeds and the
correlation value is computed silently by the division formula — `NaN` in
float64 arithmetic, and 0 under the real-number division-by-zero
convention of this model. -/
theorem C7_degenerate_silent_division :
    matGet degSnap.covMat 0 0 = 0 ∧ getCorFromCov degSnap.covMat 0 0 = 0 := by
  constructor
  · decide
  · have h : matGet degSnap.covMat 0 0 = 0 := by decide
    unfold getCorFromCov
    rw [h]
    simp

/-- C1: every snapshot of a successful decode carries an exactly symmetric
covariance matrix (`covMat[i][j] == covMat[j][i]` as stored values), and
that matrix is produced by the mirrored write of each parsed triangular
row (`buildCov`, the fold of the source's paired lower/upper assignments)
— not by a post-hoc symmetrization pass. -/
theorem C1_covmat_symmetric (raw : List Char) (r : RestartFileContents)
    (h : decode raw = .ok r) :
    ∀ s ∈ r.snapshots,
      (∀ i j, matGet s.covMat i j = matGet s.covMat j i) ∧
      ∃ rows, s.covMat = covList r.ndim (buildCov rows) := by
  obtain ⟨mrow, nd, snaps, _, _, hnd, hrecs, hr⟩ := decode_ok h
  subst hr
  intro s hs
  obtain ⟨j0, hj⟩ := decodeRecords_mem hrecs hs
  obtain ⟨mar, ssz, lsd, asf, mvRaw, mv, rows, _, _, _, _, _, _, _, hseq⟩ :=
    decodeRecord_ok hj
  refine ⟨?_, rows, ?_⟩
  · intro i1 j1
    rw [hseq]
    dsimp only
    rw [covList_matGet, covList_matGet]
    by_cases hij : i1 < nd ∧ j1 < nd
    · rw [if_pos hij, if_pos ⟨hij.2, hij.1⟩]
      exact buildCov_symm rows i1 j1
    · rw [if_neg hij, if_neg (by tauto)]
  · rw [hseq]

/-- Witness for C1 on the concrete file `goodRaw`. -/
theorem C1_covmat_symmetric_witness :
    decode goodRaw = .ok goodContents ∧
    ∀ s ∈ goodContents.snapshots,
      (∀ i j, matGet s.covMat i j = matGet s.covMat j i) ∧
      ∃ rows, s.covMat = covList goodContents.ndim (buildCov rows) := by
  have h : decode goodRaw = .ok goodContents := by decide
  exact ⟨h, C1_covmat_symmetric goodRaw goodContents h⟩

/-- C5: the snapshot count of a successful decode is exactly the number of
verbatim occurrences of the first scalar field's marker in the normalized
raw text, the snapshot sequence has that length, each scalar-table series
has that length, and the series are positionally aligned with the
snapshots (index `k` of a series is field of snapshot `k`). -/
theorem C5_count_alignment (raw : List Char) (r : RestartFileContents)
    (h : decode raw = .ok r) :
    r.count = countSub marker0 (contentsOf raw) ∧
    r.snapshots.length = r.count ∧
    (seriesMeanAcceptanceRate r).length = r.count ∧
    (seriesSampleSize r).length = r.count ∧
    (seriesLogSqrtDeterminant r).length = r.count ∧
    (seriesAdaptiveScaleFactorSquared r).length = r.count ∧
    (∀ k, k < r.count →
      (seriesMeanAcceptanceRate r).getD k 0
          = (r.snapshots.getD k default).meanAcceptanceRateSinceStart ∧
      (seriesSampleSize r).getD k 0 = (r.snapshots.getD k default).sampleSize ∧
      (seriesLogSqrtDeterminant r).getD k 0
          = (r.snapshots.getD k default).logSqrtDeterminant ∧
      (seriesAdaptiveScaleFactorSquared r).getD k 0
          = (r.snapshots.getD k default).adaptiveScaleFactorSquared) := by
  obtain ⟨mrow, nd, snaps, _, _, hnd, hrecs, hr⟩ := decode_ok h
  subst hr
  have hlen : snaps.length = countOf raw := decodeRecords_length hrecs
  refine ⟨rfl, hlen, ?_, ?_, ?_, ?_, ?_⟩
  · simpa [seriesMeanAcceptanceRate] using hlen
  · simpa [seriesSampleSize] using hlen
  · simpa [seriesLogSqrtDeterminant] using hlen
  · simpa [seriesAdaptiveScaleFactorSquared] using hlen
  · intro k hk
    have hk2 : k < snaps.length := by
      rw [hlen]
      exact hk
    exact ⟨getD_map_lt _ _ _ _ default hk2, getD_map_lt _ _ _ _ default hk2,
      getD_map_lt _ _ _ _ default hk2, getD_map_lt _ _ _ _ default hk2⟩

/-- Witness for C5 on the concrete file `goodRaw`. -/
theorem C5_count_alignment_witness :
    decode goodRaw = .ok goodContents ∧
    goodContents.count = countSub marker0 (contentsOf goodRaw) ∧
    goodContents.snapshots.length = goodContents.count ∧
    (seriesMeanAcceptanceRate goodContents).length = goodContents.count ∧
    (seriesSampleSize goodContents).length = goodContents.count ∧
    (seriesLogSqrtDeterminant goodContents).length = goodContents.count ∧
    (seriesAdaptiveScaleFactorSquared goodContents).length = goodContents.count ∧
    (∀ k, k < goodContents.count →
      (seriesMeanAcceptanceRate goodContents).getD k 0
          = (goodContents.snapshots.getD k default).meanAcceptanceRateSinceStart ∧
      (seriesSampleSize goodContents).getD k 0
          = (goodContents.snapshots.getD k default).sampleSize ∧
      (seriesLogSqrtDeterminant goodContents).getD k 0
          = (goodContents.snapshots.getD k default).logSqrtDeterminant ∧
      (seriesAdaptiveScaleFactorSquared goodContents).getD k 0
          = (goodContents.snapshots.getD k default).adaptiveScaleFactorSquared) := by
  have h : decode goodRaw = .ok goodContents := by decide
  exact ⟨h, C5_count_alignment goodRaw goodContents h⟩

/-- C6: the correlation matrix satisfies
`corMat[i][j] = covMat[i][j] / sqrt(covMat[i][i] * covMat[j][j])`, has a
unit diagonal wherever the diagonal covariance is positive, and on the
concrete scenario A (`d = 2`, triangular rows `[4]` then `[1, 9]`) the
decode yields `covMat = [[4,1],[1,9]]` with
`corMat = [[1, 1/6], [1/6, 1]]`. -/
theorem C6_correlation (cov : List (List ℚ)) (i j : Nat)
    (hpos : 0 < matGet cov i i) :
    getCorFromCov cov i j
        = (matGet cov i j : ℝ) / Real.sqrt ((matGet cov i i : ℝ) * (matGet cov j j : ℝ)) ∧
    getCorFromCov cov i i = 1 ∧
    decode scenarioARaw = .ok scenarioAContents ∧
    scenarioASnap.covMat = [[4, 1], [1, 9]] ∧
    getCorFromCov scenarioASnap.covMat 0 0 = 1 ∧
    getCorFromCov scenarioASnap.covMat 0 1 = 1 / 6 ∧
    getCorFromCov scenarioASnap.covMat 1 0 = 1 / 6 ∧
    getCorFromCov scenarioASnap.covMat 1 1 = 1 := by
  have hdiag : ∀ (c : List (List ℚ)) (a : Nat), 0 < matGet c a a →
      getCorFromCov c a a = 1 := by
    intro c a ha
    unfold getCorFromCov
    have hx : (0:ℝ) < (matGet c a a : ℝ) := by exact_mod_cast ha
    rw [Real.sqrt_mul_self hx.le]
    exact div_self hx.ne'
  have hoff : ∀ a b : Nat, matGet scenarioASnap.covMat a b = 1 →
      matGet scenarioASnap.covMat a a * matGet scenarioASnap.covMat b b = 36 →
      getCorFromCov scenarioASnap.covMat a b = 1 / 6 := by
    intro a b hab hdd
    unfold getCorFromCov
    rw [hab]
    rw [show ((matGet scenarioASnap.covMat a a : ℝ) * (matGet scenarioASnap.covMat b b : ℝ))
          = ((matGet scenarioASnap.covMat a a * matGet scenarioASnap.covMat b b : ℚ) : ℝ) by
        push_cast
        ring]
    rw [hdd]
    rw [show (((36 : ℚ) : ℝ)) = 6 ^ 2 by norm_num]
    rw [Real.sqrt_sq (by norm_num : (0:ℝ) ≤ 6)]
    norm_num
  exact ⟨rfl, hdiag cov i hpos, by decide, by decide, hdiag _ 0 (by decide),
    hoff 0 1 (by decide)
      (by rw [show matGet scenarioASnap.covMat 0 0 = 4 from by decide,
          show matGet scenarioASnap.covMat 1 1 = 9 from by decide]; norm_num),
    hoff 1 0 (by decide)
      (by rw [show matGet scenarioASnap.covMat 1 1 = 9 from by decide,
          show matGet scenarioASnap.covMat 0 0 = 4 from by decide]; norm_num),
    hdiag _ 1 (by decide)⟩

/-- Witness for C6 at the concrete scenario-A covariance matrix. -/
theorem C6_correlation_witness :
    0 < matGet scenarioASnap.covMat 0 0 ∧
    (getCorFromCov scenarioASnap.covMat 0 1
        = (matGet scenarioASnap.covMat 0 1 : ℝ)
          / Real.sqrt ((matGet scenarioASnap.covMat 0 0 : ℝ)
              * (matGet scenarioASnap.covMat 1 1 : ℝ)) ∧
     getCorFromCov scenarioASnap.covMat 0 0 = 1 ∧
     decode scenarioARaw = .ok scenarioAContents ∧
     scenarioASnap.covMat = [[4, 1], [1, 9]] ∧
     getCorFromCov scenarioASnap.covMat 0 0 = 1 ∧
     getCorFromCov scenarioASnap.covMat 0 1 = 1 / 6 ∧
     getCorFromCov scenarioASnap.covMat 1 0 = 1 / 6 ∧
     getCorFromCov scenarioASnap.covMat 1 1 = 1) :=
  ⟨by decide, C6_correlation scenarioASnap.covMat 0 1 (by decide)⟩

/-- C3 (counterexample): for `d = 1` the line at relative offset
`8 + d = 9` from the record start (here holding the numeric text `999`)
is not where the first triangular covariance value is read from: the
decoded `covMat[0][0]` is `4`, parsed from relative offset `9 + d`. -/
theorem C3_offset_counterexample :
    decodeRecord cexLines 1 12 0 = .ok cexSnap ∧
    parseNumeric (cexLines.getD (recordStart 12 0 + 8 + 1) []) = some 999 ∧
    matGet cexSnap.covMat 0 0 = 4 ∧
    parseNumeric (cexLines.getD (recordStart 12 0 + 9 + 1) [])
        = some (matGet cexSnap.covMat 0 0) := by
  refine ⟨by decide, by decide, by decide, by decide⟩

/-- C3 (amended): within every successfully decoded record the decoder
reads the four scalars at relative offsets 0, 2, 4, 6, the mean vector as
the `d` consecutive lines starting at relative offset 8, and the first
triangular covariance value at relative offset `9 + d` — one line (the
`covMat` label slot skipped by the source's `iend += 1`) after the mean
vector, not `8 + d`. -/
theorem C3_record_offsets (lines : List (List Char)) (d sk k : Nat) (s : Snapshot)
    (hd : 1 ≤ d) (h : decodeRecord lines d sk k = .ok s) :
    parseNumeric (lines.getD (recordStart sk k + 0) [])
        = some s.meanAcceptanceRateSinceStart ∧
    parseNumeric (lines.getD (recordStart sk k + 2) []) = some s.sampleSize ∧
    parseNumeric (lines.getD (recordStart sk k + 4) []) = some s.logSqrtDeterminant ∧
    parseNumeric (lines.getD (recordStart sk k + 6) [])
        = some s.adaptiveScaleFactorSquared ∧
    s.meanVec.length = d ∧
    (∀ j2, j2 < d →
      parseNumeric (lines.getD (recordStart sk k + 8 + j2) [])
          = some (s.meanVec.getD j2 0)) ∧
    parseNumeric (lines.getD (recordStart sk k + 9 + d) [])
        = some (matGet s.covMat 0 0) := by
  obtain ⟨mar, ssz, lsd, asf, mvRaw, mv, rows, h1, h2, h3, h4, h5, h6, h7, hseq⟩ :=
    decodeRecord_ok h
  obtain ⟨dd, rfl⟩ : ∃ dd, d = dd + 1 := ⟨d - 1, by omega⟩
  obtain ⟨v, rest, hrowseq, hv⟩ := readCovRows_ok_head h7
  have hslice := pySlice_length lines (recordStart sk k + 8) (recordStart sk k + 8 + (dd + 1))
  have hmvlen := npDoubleList_length h5
  rcases npAssign_ok h6 with ⟨hlA, hmvA⟩ | ⟨hl1, hlne, _⟩
  · -- the mean-vector slice has full length d
    refine ⟨?_, ?_, ?_, ?_, ?_, ?_, ?_⟩
    · rw [hseq]; exact readScalar_ok h1
    · rw [hseq]; exact readScalar_ok h2
    · rw [hseq]; exact readScalar_ok h3
    · rw [hseq]; exact readScalar_ok h4
    · rw [hseq]
      show mv.length = dd + 1
      rw [hmvA, hlA]
    · intro j2 hj2
      have hj3 : j2 < (recordStart sk k + 8 + (dd + 1)) - (recordStart sk k + 8) := by omega
      have hg := npDoubleList_getD h5 j2 (by omega)
      rw [pySlice_getD lines (recordStart sk k + 8) (recordStart sk k + 8 + (dd + 1)) j2 hj3]
        at hg
      rw [hseq]
      show parseNumeric (lines.getD (recordStart sk k + 8 + j2) []) = some (mv.getD j2 0)
      rw [hmvA]
      rw [show recordStart sk k + 8 + j2 = recordStart sk k + 8 + j2 from rfl]
      exact hg
    · rw [hseq]
      show parseNumeric (lines.getD (recordStart sk k + 9 + (dd + 1)) [])
          = some (matGet (covList (dd + 1) (buildCov rows)) 0 0)
      rw [covList_matGet, if_pos ⟨by omega, by omega⟩, hrowseq, buildCov_head]
      rw [show recordStart sk k + 9 + (dd + 1) = recordStart sk k + 8 + (dd + 1) + 1 by omega]
      simpa using hv
  · -- broadcast branch: impossible, the covariance row read would run past
    -- the end of the line list
    exfalso
    have hmin : min ((recordStart sk k + 8 + (dd + 1)) - (recordStart sk k + 8))
        (lines.length - (recordStart sk k + 8)) = 1 := by
      rw [← hslice, ← hmvlen, hl1]
    have hL : lines.length = recordStart sk k + 9 := by omega
    have hdef : lines.getD (recordStart sk k + 8 + (dd + 1) + 1) [] = [] := by
      apply List.getD_eq_default
      omega
    rw [hdef] at hv
    rw [show parseNumeric [] = none from rfl] at hv
    simp at hv

/-- Witness for C3 on record 0 of the concrete file `goodRaw`. -/
theorem C3_record_offsets_witness :
    decodeRecord (lineListOf goodRaw) 1 12 0 = .ok goodSnap ∧ 1 ≤ 1 ∧
    (parseNumeric ((lineListOf goodRaw).getD (recordStart 12 0 + 0) [])
        = some goodSnap.meanAcceptanceRateSinceStart ∧
     parseNumeric ((lineListOf goodRaw).getD (recordStart 12 0 + 2) [])
        = some goodSnap.sampleSize ∧
     parseNumeric ((lineListOf goodRaw).getD (recordStart 12 0 + 4) [])
        = some goodSnap.logSqrtDeterminant ∧
     parseNumeric ((lineListOf goodRaw).getD (recordStart 12 0 + 6) [])
        = some goodSnap.adaptiveScaleFactorSquared ∧
     goodSnap.meanVec.length = 1 ∧
     (∀ j2, j2 < 1 →
       parseNumeric ((lineListOf goodRaw).getD (recordStart 12 0 + 8 + j2) [])
           = some (goodSnap.meanVec.getD j2 0)) ∧
     parseNumeric ((lineListOf goodRaw).getD (recordStart 12 0 + 9 + 1) [])
        = some (matGet goodSnap.covMat 0 0)) := by
  have h : decodeRecord (lineListOf goodRaw) 1 12 0 = .ok goodSnap := by decide
  exact ⟨h, by decide, C3_record_offsets (lineListOf goodRaw) 1 12 0 goodSnap (by decide) h⟩

end RestartFile
